import Mathlib

/-
Verification of the end-to-end encrypted session layer of the SSC (Super
Secure Chat) client.

The development shallowly embeds the TypeScript source:
  - `src/lib/signal.ts` (SignalStore, SignalProtocol),
  - the CryptoService wrapper (`src/unnamed/part_005`),
  - the chat screen's `sendMessage` (`src/unnamed/part_001`).

The underlying cryptographic library (`@signalapp/libsignal-client`: X3DH
key agreement, double-ratchet session cipher, Ed25519-style signatures) and
Node's `crypto` SHA-256 are not part of the repository; they are modelled
here.  SHA-256 is implemented concretely (FIPS 180-4, validated against the
standard test vectors below).  The asymmetric primitives are modelled
symbolically: a key pair is a natural-number seed, Diffie–Hellman is a
symmetric pairing of the two seeds, a signature is the signing seed
prepended to the message, and the ratchet's symmetric encryption is a
(key, plaintext) pair whose decryption checks the key — the check standing
in for the MAC/tag verification.  Session establishment and the ratchet
follow the specification's description of the library behaviour (doc
comments starting with "Modelled from the spec" mark those definitions);
everything else is translated directly from the source.
-/

/-! ## Symbolic asymmetric primitives -/

/-- Modelled from the spec: a public key is the public handle of a private
key seed; the symbolic model identifies the handle with the seed. -/
def pubOf (sk : Nat) : Nat := sk

/-- Modelled from the spec: Diffie–Hellman between a private key and a
public key, as the standard symmetric pairing of the two seeds, so that
`dh a (pubOf b) = dh b (pubOf a)`. -/
def dh (sk pk : Nat) : Nat := Nat.pair (min sk pk) (max sk pk)

theorem dh_comm (a b : Nat) : dh a b = dh b a := by
  unfold dh; rw [Nat.min_comm, Nat.max_comm]

/-- Modelled from the spec: the serialized form of a symbolic public key. -/
def serializePub (pk : Nat) : List Nat := [pk]

/-- Modelled from the spec: signing a message with a private key; the
symbolic signature is the signing seed prepended to the message bytes. -/
def sign (sk : Nat) (msg : List Nat) : List Nat := sk :: msg

/-- Modelled from the spec: signature verification against a public key —
the signature must be exactly the unique valid signature for the message
under the key pair behind `pk`. -/
def verifySig (pk : Nat) (msg : List Nat) (sig : List Nat) : Bool :=
  sig = pubOf pk :: msg

/-- Modelled from the spec: the KDF combining the multi-stage DH shares
into an initial root key. -/
def kdfRoot (shares : List Nat) : Nat := shares.foldl Nat.pair 0

/-- Modelled from the spec: the initial chain key of one ratchet direction
(0 = initiator to responder, 1 = responder to initiator). -/
def chainInit (root dir : Nat) : Nat := Nat.pair root dir

/-- Modelled from the spec: advancing a chain key irreversibly. -/
def chainNext (ck : Nat) : Nat := Nat.pair ck 1

/-- Modelled from the spec: the per-message key derived from a chain key. -/
def msgKeyOf (ck : Nat) : Nat := Nat.pair ck 2

/-- The chain key after advancing `n` times from `ck`. -/
def chainKeyAt (ck : Nat) : Nat → Nat
  | 0 => ck
  | n + 1 => chainNext (chainKeyAt ck n)

/-! ## SHA-256 (FIPS 180-4), the hash `getSafetyNumber` invokes via
`crypto.createHash('sha256')` -/

namespace Sha256

def w32 (n : Nat) : Nat := n % 4294967296

def rotr (n x : Nat) : Nat := w32 ((x >>> n) ||| (x <<< (32 - n)))

def bigS0 (x : Nat) : Nat := w32 (rotr 2 x ^^^ rotr 13 x ^^^ rotr 22 x)

def bigS1 (x : Nat) : Nat := w32 (rotr 6 x ^^^ rotr 11 x ^^^ rotr 25 x)

def smallS0 (x : Nat) : Nat := w32 (rotr 7 x ^^^ rotr 18 x ^^^ (x >>> 3))

def smallS1 (x : Nat) : Nat := w32 (rotr 17 x ^^^ rotr 19 x ^^^ (x >>> 10))

def ch (x y z : Nat) : Nat := w32 ((x &&& y) ^^^ ((x ^^^ 4294967295) &&& z))

def maj (x y z : Nat) : Nat := w32 ((x &&& y) ^^^ (x &&& z) ^^^ (y &&& z))

def K : List Nat :=
  [1116352408, 1899447441, 3049323471, 3921009573, 961987163, 1508970993,
   2453635748, 2870763221, 3624381080, 310598401, 607225278, 1426881987,
   1925078388, 2162078206, 2614888103, 3248222580, 3835390401, 4022224774,
   264347078, 604807628, 770255983, 1249150122, 1555081692, 1996064986,
   2554220882, 2821834349, 2952996808, 3210313671, 3336571891, 3584528711,
   113926993, 338241895, 666307205, 773529912, 1294757372, 1396182291,
   1695183700, 1986661051, 2177026350, 2456956037, 2730485921, 2820302411,
   3259730800, 3345764771, 3516065817, 3600352804, 4094571909, 275423344,
   430227734, 506948616, 659060556, 883997877, 958139571, 1322822218,
   1537002063, 1747873779, 1955562222, 2024104815, 2227730452, 2361852424,
   2428436474, 2756734187, 3204031479, 3329325298]

def H0 : List Nat :=
  [1779033703, 3144134277, 1013904242, 2773480762,
   1359893119, 2600822924, 528734635, 1541459225]

/-- Big-endian 32-bit words from a byte list (length a multiple of 4). -/
def toWords : List Nat → List Nat
  | a :: b :: c :: d :: rest => (((a * 256 + b) * 256 + c) * 256 + d) :: toWords rest
  | _ => []

def chunksAux : Nat → List Nat → List (List Nat)
  | 0, _ => []
  | _ + 1, [] => []
  | k + 1, a :: rest => (a :: rest.take 15) :: chunksAux k (rest.drop 15)

/-- A word list split into 16-word blocks. -/
def chunks16 (l : List Nat) : List (List Nat) := chunksAux l.length l

/-- The message schedule: extend the 16 block words by `k` further words. -/
def extendW : Nat → List Nat → List Nat
  | 0, w => w
  | k + 1, w =>
    let t := w.length
    extendW k (w ++ [w32 (smallS1 (w.getD (t - 2) 0) + w.getD (t - 7) 0 +
      smallS0 (w.getD (t - 15) 0) + w.getD (t - 16) 0)])

def round (st : List Nat) (kw : Nat × Nat) : List Nat :=
  match st with
  | [a, b, c, d, e, f, g, h] =>
    let t1 := w32 (h + bigS1 e + ch e f g + kw.1 + kw.2)
    let t2 := w32 (bigS0 a + maj a b c)
    [w32 (t1 + t2), a, b, c, w32 (d + t1), e, f, g]
  | other => other

def compress (h : List Nat) (block : List Nat) : List Nat :=
  let w := extendW 48 block
  let st := (K.zip w).foldl round h
  List.zipWith (fun x y => w32 (x + y)) h st

/-- The 8-byte big-endian bit-length field of the padding. -/
def lenBytes (n : Nat) : List Nat :=
  [n >>> 56 % 256, n >>> 48 % 256, n >>> 40 % 256, n >>> 32 % 256,
   n >>> 24 % 256, n >>> 16 % 256, n >>> 8 % 256, n % 256]

/-- FIPS 180-4 padding: 0x80, zeros to 56 mod 64, 64-bit message length. -/
def padMessage (m : List Nat) : List Nat :=
  let L := m.length
  m ++ [128] ++ List.replicate ((119 - L % 64) % 64) 0 ++ lenBytes (8 * L)

def wordBytes (w : Nat) : List Nat := [w >>> 24 % 256, w >>> 16 % 256, w >>> 8 % 256, w % 256]

/-- SHA-256 of a byte list, as a 32-byte list. -/
def sha256 (m : List Nat) : List Nat :=
  (((chunks16 (toWords (padMessage m))).foldl compress H0).map wordBytes).flatten

def hexDigit (n : Nat) : Char := if n < 10 then Char.ofNat (48 + n) else Char.ofNat (87 + n)

def byteHex (b : Nat) : List Char := [hexDigit (b / 16), hexDigit (b % 16)]

/-- Lower-case hex rendering of a byte list, mirroring `digest('hex')`. -/
def hexString (l : List Nat) : String := String.mk ((l.map byteHex).flatten)

end Sha256

/-- FIPS 180-4 test vector: the empty message. -/
theorem sha256_vector_empty :
    Sha256.hexString (Sha256.sha256 []) =
      "e3b0c44298fc1c149afbf4c8996fb92427ae41e4649b934ca495991b7852b855" := by
  decide

/-- FIPS 180-4 test vector: the ASCII message "abc". -/
theorem sha256_vector_abc :
    Sha256.hexString (Sha256.sha256 [97, 98, 99]) =
      "ba7816bf8f01cfea414140de5dae2223b00361a396177a9cb410ff61f20015ad" := by
  decide

/-! ## Data model (from `src/lib/signal.ts`) -/

/-- The `signedPreKey` component of a published `UserBundle`. -/
structure SignedPreKeyPub where
  keyId : Nat
  publicKey : Nat
  signature : List Nat
deriving DecidableEq

/-- The `preKey` component of a published `UserBundle`. -/
structure PreKeyPub where
  keyId : Nat
  publicKey : Nat
deriving DecidableEq

/-- The publishable bundle (`UserBundle` in `src/lib/signal.ts`): identity
public key, signed pre-key with signature, one one-time pre-key, and the
registration id. -/
structure UserBundle where
  identityKey : Nat
  signedPreKey : SignedPreKeyPub
  preKey : PreKeyPub
  registrationId : Nat
deriving DecidableEq

/-- A stored `SignedPreKeyRecord` (key pair, signature, timestamp). -/
structure SignedPreKeyRecord where
  keyId : Nat
  timestamp : Nat
  publicKey : Nat
  privateKey : Nat
  signature : List Nat
deriving DecidableEq

/-- A stored one-time `PreKeyRecord` (key pair). -/
structure PreKeyRecord where
  keyId : Nat
  publicKey : Nat
  privateKey : Nat
deriving DecidableEq

/-- The symbolic symmetric ciphertext inside an envelope: the message key
it was encrypted under together with the plaintext; decryption checks the
key, standing in for the MAC/tag verification of the ratchet cipher. -/
structure SymCt where
  key : Nat
  pt : String
deriving DecidableEq

/-- Modelled from the spec: the sender-side metadata kept while the session
has not yet confirmed receipt of the peer's response; it is embedded in
every `PreKeyMessage` envelope so the receiver can bootstrap its side. -/
structure PendingBootstrap where
  regId : Nat
  preKeyId : Option Nat
  signedPreKeyId : Nat
  ephPub : Nat
  identityPub : Nat
deriving DecidableEq

/-- Modelled from the spec: mutable ratchet state of one session — root
key, per-direction chain keys and counters, the bounded store of skipped
message keys, which one-time pre-key entered the key agreement, the peer's
bootstrap base key, and the pending bootstrap metadata on the sender
side. -/
structure SessionRecord where
  rootKey : Nat
  sendChainKey : Nat
  sendCount : Nat
  recvChainKey : Nat
  recvCount : Nat
  skipped : List (Nat × Nat)
  otpUsed : Option PreKeyPub
  theirBaseKey : Option Nat
  pending : Option PendingBootstrap
deriving DecidableEq

/-- The ciphertext envelope: a tagged union of a bootstrap `PreKeyMessage`
(registration id, referenced pre-key ids, sender base and identity public
keys, message counter, ciphertext) and a `NormalMessage` (counter and
ciphertext). -/
inductive Envelope where
  | preKeyMsg (regId : Nat) (preKeyId : Option Nat) (signedPreKeyId : Nat)
      (ephPub : Nat) (identityPub : Nat) (counter : Nat) (ct : SymCt)
  | normalMsg (counter : Nat) (ct : SymCt)
deriving DecidableEq

/-! ### Association-list store primitives -/

/-- Lookup in an association list (the `getItemAsync` reads of the
`SecureStore`-backed maps). -/
def lookupA {α β : Type} [DecidableEq α] : List (α × β) → α → Option β
  | [], _ => none
  | (k, v) :: rest, a => if a = k then some v else lookupA rest a

/-- Remove every entry with the given key. -/
def removeA {α β : Type} [DecidableEq α] (l : List (α × β)) (a : α) : List (α × β) :=
  l.filter (fun p => p.1 ≠ a)

/-- Insert-or-overwrite (the `setItemAsync` writes). -/
def insertA {α β : Type} [DecidableEq α] (l : List (α × β)) (a : α) (b : β) : List (α × β) :=
  (a, b) :: removeA l a

theorem lookupA_cons_self {α β : Type} [DecidableEq α] (a : α) (b : β) (l : List (α × β)) :
    lookupA ((a, b) :: l) a = some b := by
  simp [lookupA]

theorem lookupA_insertA_self {α β : Type} [DecidableEq α] (l : List (α × β)) (a : α) (b : β) :
    lookupA (insertA l a b) a = some b := by
  simp [insertA, lookupA]

theorem lookupA_removeA_self {α β : Type} [DecidableEq α] (l : List (α × β)) (a : α) :
    lookupA (removeA l a) a = none := by
  induction l with
  | nil => rfl
  | cons p rest ih =>
    by_cases h : p.1 = a
    · simpa [removeA, h] using ih
    · simpa [removeA, lookupA, h, Ne.symm h] using ih

theorem lookupA_append_none {α β : Type} [DecidableEq α] (l₁ l₂ : List (α × β)) (a : α)
    (h₁ : lookupA l₁ a = none) (h₂ : lookupA l₂ a = none) :
    lookupA (l₁ ++ l₂) a = none := by
  induction l₁ with
  | nil => simpa using h₂
  | cons p rest ih =>
    by_cases h : a = p.1
    · simp [lookupA, h] at h₁
    · simp only [lookupA, if_neg h] at h₁ ⊢
      exact ih h₁

theorem lookupA_none_of_all_ne {α β : Type} [DecidableEq α] (l : List (α × β)) (a : α)
    (h : ∀ p ∈ l, p.1 ≠ a) : lookupA l a = none := by
  induction l with
  | nil => rfl
  | cons p rest ih =>
    obtain ⟨k, v⟩ := p
    have hp : k ≠ a := h (k, v) (by simp)
    simp only [lookupA, if_neg (Ne.symm hp)]
    exact ih (fun q hq => h q (List.mem_cons_of_mem _ hq))

/-- The local key store (`SignalStore` over `expo-secure-store`): the
identity key pair, registration id, the keyed maps of signed pre-keys,
one-time pre-keys, per-address sessions, and per-peer trusted identity
keys. -/
structure StoreState where
  identityPriv : Option Nat
  identityPub : Option Nat
  registrationId : Option Nat
  signedPreKeys : List (Nat × SignedPreKeyRecord)
  preKeys : List (Nat × PreKeyRecord)
  sessions : List (String × SessionRecord)
  identities : List (String × Nat)
deriving DecidableEq

/-- The store of a user who has not initialized anything yet. -/
def emptyStore : StoreState :=
  { identityPriv := none, identityPub := none, registrationId := none,
    signedPreKeys := [], preKeys := [], sessions := [], identities := [] }

/-- A store holding only an identity key pair with seed `sk`. -/
def mkIdentityStore (sk : Nat) : StoreState :=
  { emptyStore with identityPriv := some sk, identityPub := some (pubOf sk) }

/-- `SignalStore.storeSession`: overwrite the session for an address. -/
def StoreState.storeSession (st : StoreState) (addr : String) (s : SessionRecord) : StoreState :=
  { st with sessions := insertA st.sessions addr s }

namespace SignalStore

/-- `SignalStore.isTrustedIdentity` from `src/lib/signal.ts`: returns
`true` unconditionally ("For demo purposes, always trust new
identities"). -/
def isTrustedIdentity (_st : StoreState) (_addrName : String) (_identityKey : Nat) : Bool :=
  true

/-- `SignalStore.saveIdentity` from `src/lib/signal.ts`: overwrites the
stored identity key for the peer and returns `false` unconditionally. -/
def saveIdentity (st : StoreState) (addrName : String) (identityKey : Nat) :
    Bool × StoreState :=
  (false, { st with identities := insertA st.identities addrName identityKey })

/-- `SignalStore.getIdentity`: the stored identity key for a peer, if
any. -/
def getIdentity (st : StoreState) (addrName : String) : Option Nat :=
  lookupA st.identities addrName

end SignalStore

/-! ## Serialized wire format of envelopes

The source transmits envelopes as opaque base64 strings
(`Buffer.from(ciphertext.serialize()).toString('base64')` on encrypt,
`Buffer.from(ciphertext, 'base64')` plus `deserialize` on decrypt).  The
model uses an injective rendering into the base64 alphabet with a decoder
that is a left inverse, mirroring serialize/deserialize: numbers are
written as binary digits, least significant first, terminated by '/'; an
optional number is tagged 's'/'n'; '=' padding brings the length to a
multiple of four (and at least ten characters), as base64 padding does. -/

/-- The binary digits of `n`, least significant first (empty for zero);
the first argument is fuel making the recursion structural. -/
def bitsAux : Nat → Nat → List Char
  | 0, _ => []
  | _ + 1, 0 => []
  | f + 1, n + 1 => (if (n + 1) % 2 = 1 then '1' else '0') :: bitsAux f ((n + 1) / 2)

def encodeNat (n : Nat) : List Char := bitsAux n n ++ ['/']

def parseNat : List Char → Option (Nat × List Char)
  | [] => none
  | '/' :: rest => some (0, rest)
  | '0' :: rest =>
    match parseNat rest with
    | some (n, r) => some (2 * n, r)
    | none => none
  | '1' :: rest =>
    match parseNat rest with
    | some (n, r) => some (2 * n + 1, r)
    | none => none
  | _ => none

theorem parseNat_bitsAux (f : Nat) :
    ∀ n, n ≤ f → ∀ r, parseNat (bitsAux f n ++ ('/' :: r)) = some (n, r) := by
  induction f with
  | zero =>
    intro n hn r
    have : n = 0 := Nat.le_zero.mp hn
    subst this
    rfl
  | succ f ih =>
    intro n hn r
    match n with
    | 0 => rfl
    | m + 1 =>
      have hle : (m + 1) / 2 ≤ f := by omega
      have hrec := ih ((m + 1) / 2) hle r
      by_cases hp : (m + 1) % 2 = 1
      · simp only [bitsAux, if_pos hp, List.cons_append, parseNat]
        rw [hrec]
        simp only []
        have h2 : 2 * ((m + 1) / 2) + 1 = m + 1 := by omega
        simp [h2]
      · simp only [bitsAux, if_neg hp, List.cons_append, parseNat]
        rw [hrec]
        simp only []
        have h2 : 2 * ((m + 1) / 2) = m + 1 := by omega
        simp [h2]

theorem parseNat_encodeNat (n : Nat) (r : List Char) :
    parseNat (encodeNat n ++ r) = some (n, r) := by
  have := parseNat_bitsAux n n (Nat.le_refl n) r
  simpa [encodeNat] using this

/-- Every character `bitsAux` emits is a binary digit. -/
theorem bitsAux_mem (f : Nat) : ∀ n, ∀ c ∈ bitsAux f n, c = '0' ∨ c = '1' := by
  induction f with
  | zero => intro n c hc; simp [bitsAux] at hc
  | succ f ih =>
    intro n c hc
    match n with
    | 0 => simp [bitsAux] at hc
    | m + 1 =>
      simp only [bitsAux, List.mem_cons] at hc
      rcases hc with rfl | hc
      · by_cases hp : (m + 1) % 2 = 1 <;> simp [hp]
      · exact ih _ c hc

def encodeOptNat : Option Nat → List Char
  | none => ['n']
  | some k => 's' :: encodeNat k

def parseOptNat : List Char → Option (Option Nat × List Char)
  | 'n' :: rest => some (none, rest)
  | 's' :: rest =>
    match parseNat rest with
    | some (k, r) => some (some k, r)
    | none => none
  | _ => none

theorem parseOptNat_encodeOptNat (o : Option Nat) (r : List Char) :
    parseOptNat (encodeOptNat o ++ r) = some (o, r) := by
  cases o with
  | none => rfl
  | some k => simp [encodeOptNat, parseOptNat, parseNat_encodeNat]

def encodeNatList (l : List Nat) : List Char :=
  encodeNat l.length ++ (l.map encodeNat).flatten

def parseNats : Nat → List Char → Option (List Nat × List Char)
  | 0, r => some ([], r)
  | k + 1, r =>
    match parseNat r with
    | none => none
    | some (n, r1) =>
      match parseNats k r1 with
      | none => none
      | some (l, r2) => some (n :: l, r2)

def parseNatList (r : List Char) : Option (List Nat × List Char) :=
  match parseNat r with
  | none => none
  | some (k, r1) => parseNats k r1

theorem parseNats_encode (l : List Nat) (r : List Char) :
    parseNats l.length ((l.map encodeNat).flatten ++ r) = some (l, r) := by
  induction l with
  | nil => rfl
  | cons n rest ih =>
    simp only [List.map_cons, List.flatten_cons, List.length_cons, parseNats,
      List.append_assoc, parseNat_encodeNat]
    rw [ih]

theorem parseNatList_encodeNatList (l : List Nat) (r : List Char) :
    parseNatList (encodeNatList l ++ r) = some (l, r) := by
  simp only [encodeNatList, parseNatList, List.append_assoc, parseNat_encodeNat]
  exact parseNats_encode l r

def encodeString (s : String) : List Char := encodeNatList (s.data.map Char.toNat)

def parseString (r : List Char) : Option (String × List Char) :=
  match parseNatList r with
  | none => none
  | some (l, r1) => some (String.mk (l.map Char.ofNat), r1)

theorem parseString_encodeString (s : String) (r : List Char) :
    parseString (encodeString s ++ r) = some (s, r) := by
  cases s with
  | mk data =>
    simp only [encodeString, parseString, parseNatList_encodeNatList]
    have hmap : (data.map Char.toNat).map Char.ofNat = data := by
      rw [List.map_map]
      have h2 : (Char.ofNat ∘ Char.toNat) = (id : Char → Char) :=
        funext (fun c => Char.ofNat_toNat c)
      rw [h2, List.map_id]
    rw [hmap]

def encodeCt (ct : SymCt) : List Char := encodeNat ct.key ++ encodeString ct.pt

def parseCt (r : List Char) : Option (SymCt × List Char) :=
  match parseNat r with
  | none => none
  | some (k, r1) =>
    match parseString r1 with
    | none => none
    | some (pt, r2) => some (⟨k, pt⟩, r2)

theorem parseCt_encodeCt (ct : SymCt) (r : List Char) :
    parseCt (encodeCt ct ++ r) = some (ct, r) := by
  simp [encodeCt, parseCt, parseNat_encodeNat, parseString_encodeString]

def encodeBody : Envelope → List Char
  | .preKeyMsg regId preKeyId signedPreKeyId ephPub identityPub counter ct =>
    'B' :: (encodeNat regId ++ encodeOptNat preKeyId ++ encodeNat signedPreKeyId ++
      encodeNat ephPub ++ encodeNat identityPub ++ encodeNat counter ++ encodeCt ct)
  | .normalMsg counter ct => 'C' :: (encodeNat counter ++ encodeCt ct)

def parseEnvelope (r : List Char) : Option (Envelope × List Char) :=
  match r with
  | 'B' :: r0 =>
    match parseNat r0 with
    | none => none
    | some (regId, r1) =>
      match parseOptNat r1 with
      | none => none
      | some (preKeyId, r2) =>
        match parseNat r2 with
        | none => none
        | some (signedPreKeyId, r3) =>
          match parseNat r3 with
          | none => none
          | some (ephPub, r4) =>
            match parseNat r4 with
            | none => none
            | some (identityPub, r5) =>
              match parseNat r5 with
              | none => none
              | some (counter, r6) =>
                match parseCt r6 with
                | none => none
                | some (ct, r7) =>
                  some (.preKeyMsg regId preKeyId signedPreKeyId ephPub identityPub counter ct, r7)
  | 'C' :: r0 =>
    match parseNat r0 with
    | none => none
    | some (counter, r1) =>
      match parseCt r1 with
      | none => none
      | some (ct, r2) => some (.normalMsg counter ct, r2)
  | _ => none

theorem parseEnvelope_encodeBody (e : Envelope) (r : List Char) :
    parseEnvelope (encodeBody e ++ r) = some (e, r) := by
  cases e with
  | preKeyMsg regId preKeyId signedPreKeyId ephPub identityPub counter ct =>
    simp [encodeBody, parseEnvelope, parseNat_encodeNat, parseOptNat_encodeOptNat,
      parseCt_encodeCt, List.append_assoc]
  | normalMsg counter ct =>
    simp [encodeBody, parseEnvelope, parseNat_encodeNat, parseCt_encodeCt, List.append_assoc]

/-- The serialized base64 wire string of an envelope: the body followed by
'=' padding to a multiple of four characters (and at least ten). -/
def encodeEnvelope (e : Envelope) : String :=
  let body := encodeBody e
  String.mk (body ++ List.replicate ((4 - body.length % 4) % 4 + 12) '=')

/-- Deserialization of a wire string: strip the padding, parse the body,
and require that nothing trails it. -/
def decodeEnvelope (s : String) : Option Envelope :=
  match parseEnvelope (s.data.takeWhile (fun c => c ≠ '=')) with
  | some (e, []) => some e
  | _ => none

theorem encodeBody_no_pad (e : Envelope) : ∀ c ∈ encodeBody e, c ≠ '=' := by
  have hnat : ∀ n : Nat, ∀ c ∈ encodeNat n, c ≠ '=' := by
    intro n c hc
    simp only [encodeNat, List.mem_append, List.mem_singleton] at hc
    rcases hc with hc | rfl
    · rcases bitsAux_mem n n c hc with rfl | rfl <;> decide
    · decide
  have hopt : ∀ o : Option Nat, ∀ c ∈ encodeOptNat o, c ≠ '=' := by
    intro o c hc
    cases o with
    | none => simp only [encodeOptNat, List.mem_singleton] at hc; subst hc; decide
    | some k =>
      simp only [encodeOptNat, List.mem_cons] at hc
      rcases hc with rfl | hc
      · decide
      · exact hnat k c hc
  have hlist : ∀ l : List Nat, ∀ c ∈ encodeNatList l, c ≠ '=' := by
    intro l c hc
    simp only [encodeNatList, List.mem_append, List.mem_flatten] at hc
    rcases hc with hc | ⟨piece, hpiece, hc⟩
    · exact hnat _ c hc
    · obtain ⟨n, _, rfl⟩ := List.mem_map.mp hpiece
      exact hnat n c hc
  have hstr : ∀ s : String, ∀ c ∈ encodeString s, c ≠ '=' :=
    fun s c hc => hlist _ c hc
  have hct : ∀ ct : SymCt, ∀ c ∈ encodeCt ct, c ≠ '=' := by
    intro ct c hc
    simp only [encodeCt, List.mem_append] at hc
    rcases hc with hc | hc
    · exact hnat _ c hc
    · exact hstr _ c hc
  intro c hc
  cases e with
  | preKeyMsg regId preKeyId signedPreKeyId ephPub identityPub counter ct =>
    simp only [encodeBody, List.mem_cons, List.mem_append] at hc
    rcases hc with rfl | ((((((hc | hc) | hc) | hc) | hc) | hc) | hc)
    · decide
    · exact hnat _ c hc
    · exact hopt _ c hc
    · exact hnat _ c hc
    · exact hnat _ c hc
    · exact hnat _ c hc
    · exact hnat _ c hc
    · exact hct _ c hc
  | normalMsg counter ct =>
    simp only [encodeBody, List.mem_cons, List.mem_append] at hc
    rcases hc with rfl | (hc | hc)
    · decide
    · exact hnat _ c hc
    · exact hct _ c hc

theorem takeWhile_append_drop_all {p : Char → Bool} :
    ∀ (l pad : List Char), (∀ c ∈ l, p c = true) → (∀ c ∈ pad, p c = false) →
    (l ++ pad).takeWhile p = l := by
  intro l pad hl hpad
  induction l with
  | nil =>
    cases pad with
    | nil => rfl
    | cons q rest =>
      simp [List.takeWhile_cons, hpad q (by simp)]
  | cons a rest ih =>
    simp [List.takeWhile_cons, hl a (by simp),
      ih (fun c hc => hl c (List.mem_cons_of_mem _ hc))]

theorem decodeEnvelope_encodeEnvelope (e : Envelope) :
    decodeEnvelope (encodeEnvelope e) = some e := by
  unfold decodeEnvelope encodeEnvelope
  have hdata : (String.mk (encodeBody e ++
      List.replicate ((4 - (encodeBody e).length % 4) % 4 + 12) '=')).data =
      encodeBody e ++ List.replicate ((4 - (encodeBody e).length % 4) % 4 + 12) '=' := rfl
  rw [hdata, takeWhile_append_drop_all _ _
    (fun c hc => by simpa using encodeBody_no_pad e c hc)
    (fun c hc => by simp [List.eq_of_mem_replicate hc])]
  have := parseEnvelope_encodeBody e []
  rw [List.append_nil] at this
  rw [this]

/-! ## Error taxonomy (spec section 7) -/

/-- The tagged failures of the cryptographic core. -/
inductive SigError where
  | InvalidSignedPreKeySignature
  | UntrustedIdentity
  | StaleOneTimePreKey
  | InvalidKeyId
  | NoSession
  | NoIdentity
  | MacFailure
  | DuplicateMessage
  | SkippedTooManyMessages
  | ParseFailure
  | RecipientKeyNotFound
deriving DecidableEq

/-! ## Session establishment and the ratchet cipher

These definitions model the `@signalapp/libsignal-client` behaviour the
source delegates to (`processPreKeyBundle`, `SessionCipher.encrypt`,
`decryptPreKeySignalMessage` / `decryptSignalMessage`); the library is not
part of the repository, so they are modelled from the spec (sections 4.3
and 4.4). -/

/-- Modelled from the spec: the sender-side X3DH share list — identity
with remote signed pre-key, ephemeral with remote identity, ephemeral with
remote signed pre-key, and, when present, ephemeral with the remote
one-time pre-key. -/
def x3dhSender (ia ea remoteIdentityPub remoteSpkPub : Nat) (remoteOtpPub : Option Nat) :
    List Nat :=
  [dh ia remoteSpkPub, dh ea remoteIdentityPub, dh ea remoteSpkPub] ++
    (match remoteOtpPub with
     | some o => [dh ea o]
     | none => [])

/-- Modelled from the spec: the receiver-side X3DH share list, mirroring
`x3dhSender` with the receiver's private keys and the sender's public keys
taken from the bootstrap metadata. -/
def x3dhReceiver (ib spkPriv : Nat) (otpPriv : Option Nat) (senderIdentityPub senderEphPub : Nat) :
    List Nat :=
  [dh spkPriv senderIdentityPub, dh ib senderEphPub, dh spkPriv senderEphPub] ++
    (match otpPriv with
     | some o => [dh o senderEphPub]
     | none => [])

/-- Both sides of the key agreement derive the same share list. -/
theorem x3dh_agree (ia ea ib spk : Nat) (o : Option Nat) :
    x3dhReceiver ib spk o (pubOf ia) (pubOf ea) = x3dhSender ia ea (pubOf ib) (pubOf spk) o := by
  cases o <;> simp [x3dhReceiver, x3dhSender, pubOf, dh_comm]

/-- The agreement restated with the public handles unfolded, in the form
the session definitions expose. -/
theorem x3dh_agree_plain (ia ea ib spk : Nat) (o : Option Nat) :
    x3dhReceiver ib spk o ia ea = x3dhSender ia ea ib spk o :=
  x3dh_agree ia ea ib spk o

/-- Modelled from the spec: the bounded window of retained skipped message
keys ("recommended cap: a few hundred"). -/
def skipCap : Nat := 300

/-- The bundle argument handed to `processPreKeyBundle`
(`PreKeyBundle.new` in the source); the one-time pre-key is optional at
the library boundary. -/
structure PreKeyBundleArg where
  registrationId : Nat
  preKey : Option PreKeyPub
  signedPreKeyId : Nat
  signedPreKeyPub : Nat
  signature : List Nat
  identityKey : Nat
deriving DecidableEq

/-- Modelled from the spec: `processPreKeyBundle` — check the trust store,
verify the remote signed pre-key signature against the remote identity
public key (failing with `InvalidSignedPreKeySignature`, never a silent
accept), run the X3DH combination with a fresh local ephemeral key, and
persist the initial session together with the pending bootstrap
metadata. -/
def processPreKeyBundle (st : StoreState) (addrName : String) (b : PreKeyBundleArg)
    (ephPriv : Nat) : Except SigError StoreState :=
  match st.identityPriv with
  | none => .error .NoIdentity
  | some ia =>
    if SignalStore.isTrustedIdentity st addrName b.identityKey = false then
      .error .UntrustedIdentity
    else if verifySig b.identityKey (serializePub b.signedPreKeyPub) b.signature = false then
      .error .InvalidSignedPreKeySignature
    else
      let root := kdfRoot (x3dhSender ia ephPriv b.identityKey b.signedPreKeyPub
        (b.preKey.map PreKeyPub.publicKey))
      let sess : SessionRecord :=
        { rootKey := root, sendChainKey := chainInit root 0, sendCount := 0,
          recvChainKey := chainInit root 1, recvCount := 0, skipped := [],
          otpUsed := b.preKey, theirBaseKey := none,
          pending := some
            { regId := st.registrationId.getD 0,
              preKeyId := b.preKey.map PreKeyPub.keyId,
              signedPreKeyId := b.signedPreKeyId,
              ephPub := pubOf ephPriv, identityPub := pubOf ia } }
      .ok ((SignalStore.saveIdentity st addrName b.identityKey).2.storeSession addrName sess)

/-- Modelled from the spec: `SessionCipher.encrypt` — derive the message
key from the sending chain, tag the envelope `PreKeyMessage` while the
bootstrap is pending and `NormalMessage` afterwards, then advance the
sending chain key irreversibly. -/
def sessionEncrypt (sess : SessionRecord) (pt : String) : Envelope × SessionRecord :=
  let ct : SymCt := { key := msgKeyOf sess.sendChainKey, pt := pt }
  let env := match sess.pending with
    | some pb => Envelope.preKeyMsg pb.regId pb.preKeyId pb.signedPreKeyId pb.ephPub
        pb.identityPub sess.sendCount ct
    | none => Envelope.normalMsg sess.sendCount ct
  (env, { sess with sendChainKey := chainNext sess.sendChainKey, sendCount := sess.sendCount + 1 })

/-- Modelled from the spec: decryption against one session.  A counter at
or beyond the receiving chain position derives the message key from the
current chain (retaining the keys of skipped indices, bounded by
`skipCap`) and advances the chain; a counter behind the chain position
must find its key in the skipped store, which is consumed on use — a
missing key is a replay and fails.  The key comparison stands in for the
MAC/tag check. -/
def decryptWithSession (sess : SessionRecord) (n : Nat) (ct : SymCt) :
    Except SigError (String × SessionRecord) :=
  if n < sess.recvCount then
    match lookupA sess.skipped n with
    | none => .error .DuplicateMessage
    | some mk =>
      if ct.key = mk then
        .ok (ct.pt, { sess with skipped := removeA sess.skipped n })
      else .error .MacFailure
  else
    if skipCap < n - sess.recvCount then .error .SkippedTooManyMessages
    else
      let mk := msgKeyOf (chainKeyAt sess.recvChainKey (n - sess.recvCount))
      if ct.key = mk then
        .ok (ct.pt,
          { sess with
            recvChainKey := chainKeyAt sess.recvChainKey (n - sess.recvCount + 1),
            recvCount := n + 1,
            skipped := ((List.range (n - sess.recvCount)).map
              (fun j => (sess.recvCount + j, msgKeyOf (chainKeyAt sess.recvChainKey j)))) ++
              sess.skipped })
      else .error .MacFailure

/-- Modelled from the spec: `decryptPreKeySignalMessage` — complete the
session bootstrap symmetrically to establishment using the embedded
metadata, consuming and deleting the referenced one-time pre-key (failing
with `StaleOneTimePreKey` when that id was already consumed), reusing the
existing session when it came from the same sender base key, then decrypt
as a normal message. -/
def decryptPreKeyEnvelope (st : StoreState) (addrName : String)
    (preKeyId : Option Nat) (signedPreKeyId : Nat) (ephPub identityPub : Nat)
    (n : Nat) (ct : SymCt) : Except SigError (String × StoreState) :=
  match st.identityPriv with
  | none => .error .NoIdentity
  | some ib =>
    if SignalStore.isTrustedIdentity st addrName identityPub = false then
      .error .UntrustedIdentity
    else
      match lookupA st.signedPreKeys signedPreKeyId with
      | none => .error .InvalidKeyId
      | some spkRec =>
        match (match preKeyId with
               | none => Except.ok (none, st)
               | some pid =>
                 match lookupA st.preKeys pid with
                 | none => Except.error SigError.StaleOneTimePreKey
                 | some pkRec =>
                   Except.ok (some pkRec.privateKey, { st with preKeys := removeA st.preKeys pid })) with
        | .error e => .error e
        | .ok (otpPriv, st1) =>
          let root := kdfRoot (x3dhReceiver ib spkRec.privateKey otpPriv identityPub ephPub)
          let fresh : SessionRecord :=
            { rootKey := root, sendChainKey := chainInit root 1, sendCount := 0,
              recvChainKey := chainInit root 0, recvCount := 0, skipped := [],
              otpUsed := none, theirBaseKey := some ephPub, pending := none }
          let sess := match lookupA st1.sessions addrName with
            | some s0 => if s0.theirBaseKey = some ephPub then s0 else fresh
            | none => fresh
          match decryptWithSession sess n ct with
          | .error e => .error e
          | .ok (pt, sess2) =>
            .ok (pt, ((SignalStore.saveIdentity st1 addrName identityPub).2.storeSession
              addrName sess2))

/-- Modelled from the spec: envelope decryption — dispatch on the tag of
the self-describing envelope (`PreKeyMessage` bootstraps, `NormalMessage`
requires an existing session). -/
def signalDecryptEnvelope (st : StoreState) (addrName : String) (env : Envelope) :
    Except SigError (String × StoreState) :=
  match env with
  | .preKeyMsg _ preKeyId signedPreKeyId ephPub identityPub n ct =>
    decryptPreKeyEnvelope st addrName preKeyId signedPreKeyId ephPub identityPub n ct
  | .normalMsg n ct =>
    match lookupA st.sessions addrName with
    | none => .error .NoSession
    | some sess =>
      match decryptWithSession sess n ct with
      | .error e => .error e
      | .ok (pt, sess2) => .ok (pt, st.storeSession addrName sess2)

/-- A session is well formed when every skipped key lies strictly behind
the receiving chain position; sessions produced by the model preserve
this. -/
def SessionWF (sess : SessionRecord) : Prop :=
  ∀ p ∈ sess.skipped, p.1 < sess.recvCount

/-- A store is well formed when all its sessions are. -/
def StateWF (st : StoreState) : Prop :=
  ∀ p ∈ st.sessions, SessionWF p.2

instance (sess : SessionRecord) : Decidable (SessionWF sess) := by
  unfold SessionWF; infer_instance

instance (st : StoreState) : Decidable (StateWF st) := by
  unfold StateWF; infer_instance

/-! ## `SignalProtocol` (from `src/lib/signal.ts`)

Effects are made explicit: the `SecureStore`-backed state is threaded
through, and each draw of `Math.random()` / key generation inside
`generateIdentity` (and the fresh ephemeral of session establishment)
becomes a parameter, listed in the order the source draws them. -/

/-- The random draws of `SignalProtocol.generateIdentity`, in source
order: identity key pair, registration id, signed pre-key id, signed
pre-key pair, one-time pre-key id, one-time pre-key pair, and the
`Date.now()` timestamp of the signed pre-key record. -/
structure IdentityRandomness where
  idPriv : Nat
  regId : Nat
  spkId : Nat
  spkPriv : Nat
  pkId : Nat
  pkPriv : Nat
  ts : Nat
deriving DecidableEq

namespace SignalProtocol

/-- `SignalProtocol.generateIdentity`: generate and persist the identity
key pair, registration id, signed pre-key record (signature by the
identity private key over the signed pre-key public bytes) and one
one-time pre-key record, returning the publishable bundle. -/
def generateIdentity (st : StoreState) (r : IdentityRandomness) : UserBundle × StoreState :=
  let sig := sign r.idPriv (serializePub (pubOf r.spkPriv))
  let st1 : StoreState :=
    { st with
      identityPriv := some r.idPriv
      identityPub := some (pubOf r.idPriv)
      registrationId := some r.regId
      signedPreKeys := insertA st.signedPreKeys r.spkId
        { keyId := r.spkId, timestamp := r.ts, publicKey := pubOf r.spkPriv,
          privateKey := r.spkPriv, signature := sig }
      preKeys := insertA st.preKeys r.pkId
        { keyId := r.pkId, publicKey := pubOf r.pkPriv, privateKey := r.pkPriv } }
  ({ identityKey := pubOf r.idPriv,
     signedPreKey := { keyId := r.spkId, publicKey := pubOf r.spkPriv, signature := sig },
     preKey := { keyId := r.pkId, publicKey := pubOf r.pkPriv },
     registrationId := r.regId }, st1)

/-- `SignalProtocol.createSession`: name the remote address after the
bundle's registration id, rebuild the `PreKeyBundle` (the one-time
pre-key of the mandatory `UserBundle.preKey` field is always passed), and
run `processPreKeyBundle`; errors are rethrown. -/
def createSession (st : StoreState) (rb : UserBundle) (ephPriv : Nat) :
    Except SigError (String × StoreState) :=
  let addr := toString rb.registrationId
  match processPreKeyBundle st addr
      { registrationId := rb.registrationId, preKey := some rb.preKey,
        signedPreKeyId := rb.signedPreKey.keyId, signedPreKeyPub := rb.signedPreKey.publicKey,
        signature := rb.signedPreKey.signature, identityKey := rb.identityKey } ephPriv with
  | .error e => .error e
  | .ok st1 => .ok (addr, st1)

/-- `SignalProtocol.encryptMessage`: encrypt under the session stored for
the address (failing with `NoSession` when absent) and return the
serialized envelope string. -/
def encryptMessage (st : StoreState) (addrName : String) (plaintext : String) :
    Except SigError (String × StoreState) :=
  match lookupA st.sessions addrName with
  | none => .error .NoSession
  | some sess =>
    let (env, sess2) := sessionEncrypt sess plaintext
    .ok (encodeEnvelope env, st.storeSession addrName sess2)

/-- `SignalProtocol.decryptMessage`: deserialize the wire string (the
source tries `PreKeySignalMessage` first and falls back to
`SignalMessage`; the envelope is self-describing, so this is the tag
dispatch of `signalDecryptEnvelope`) and decrypt; all failures propagate
as errors. -/
def decryptMessage (st : StoreState) (addrName : String) (ciphertext : String) :
    Except SigError (String × StoreState) :=
  match decodeEnvelope ciphertext with
  | none => .error .ParseFailure
  | some env => signalDecryptEnvelope st addrName env

/-- `SignalProtocol.getUserBundle`: reconstruct the publishable bundle
from the store.  The source hardcodes `signedPreKeyId = 1` and
`preKeyId = 1` for the lookups, and substitutes a fresh random
registration id (`rFallback`, not persisted) when none is stored; absent
identity or failed lookup yields `none`.  No writes are performed. -/
def getUserBundle (st : StoreState) (rFallback : Nat) : Option UserBundle :=
  match st.identityPriv, st.identityPub with
  | some _, some ipub =>
    let regId := st.registrationId.getD rFallback
    match lookupA st.signedPreKeys 1, lookupA st.preKeys 1 with
    | some spk, some pk =>
      some { identityKey := ipub,
             signedPreKey := { keyId := 1, publicKey := spk.publicKey, signature := spk.signature },
             preKey := { keyId := 1, publicKey := pk.publicKey },
             registrationId := regId }
    | _, _ => none
  | _, _ => none

end SignalProtocol

/-! ## Safety numbers (from `SignalProtocol.getSafetyNumber`) -/

def chunks5Aux : Nat → List Char → List (List Char)
  | 0, _ => []
  | _ + 1, [] => []
  | k + 1, a :: rest => (a :: rest.take 4) :: chunks5Aux k (rest.drop 4)

/-- The `/.{1,5}/g` grouping of the source: split into runs of five. -/
def chunks5 (l : List Char) : List (List Char) := chunks5Aux l.length l

/-- The core of `getSafetyNumber`: concatenate our key bytes with their
key bytes in that order, SHA-256, hex, first sixty characters, groups of
five joined by spaces. -/
def safetyNumberOf (ourKey theirKey : List Nat) : String :=
  let hash := Sha256.hexString (Sha256.sha256 (ourKey ++ theirKey))
  String.intercalate " " ((chunks5 (hash.data.take 60)).map String.mk)

namespace SignalProtocol

/-- `SignalProtocol.getSafetyNumber`: serialize our identity public key
and the other user's bundle identity key and render the safety number;
with no local identity the thrown error is caught and the literal error
string returned. -/
def getSafetyNumber (st : StoreState) (otherIdentityKey : Nat) : String :=
  match st.identityPub with
  | none => "Error generating safety number"
  | some ourKey => safetyNumberOf (serializePub ourKey) (serializePub otherIdentityKey)

end SignalProtocol

/-! ## `CryptoService` (from `src/unnamed/part_005`) -/

/-- The recipient's profile row as read from the `profiles` table
(`identity_key_public`, `signed_prekey`, `one_time_prekeys`). -/
structure RecipientProfile where
  identity_key_public : Option Nat
  signed_prekey : SignedPreKeyPub
  one_time_prekeys : List PreKeyPub
deriving DecidableEq

namespace CryptoService

/-- The bundle `CryptoService.encryptMessage` builds from the profile
row: when `one_time_prekeys` is empty the source substitutes the fallback
pre-key `{keyId: 1, publicKey: identity_key_public}`.  The registration id
is derived from the recipient's id string (modelled as the parameter
`recipientRegId`). -/
def mkRecipientBundle (idKey : Nat) (p : RecipientProfile) (recipientRegId : Nat) : UserBundle :=
  { identityKey := idKey,
    signedPreKey := p.signed_prekey,
    preKey := p.one_time_prekeys.headD { keyId := 1, publicKey := idKey },
    registrationId := recipientRegId }

/-- `CryptoService.encryptMessage`: fetch the recipient profile (given
here as an argument), fail when no identity key is published, build the
bundle, create the session and encrypt. -/
def encryptMessage (st : StoreState) (p : RecipientProfile) (recipientRegId : Nat)
    (ephPriv : Nat) (message : String) : Except SigError (String × StoreState) :=
  match p.identity_key_public with
  | none => .error .RecipientKeyNotFound
  | some idKey =>
    match SignalProtocol.createSession st (mkRecipientBundle idKey p recipientRegId) ephPriv with
    | .error e => .error e
    | .ok (addr, st1) => SignalProtocol.encryptMessage st1 addr message

/-- `CryptoService.looksEncrypted`: the base64-shape heuristic — at least
ten characters, only `[A-Za-z0-9+/=]`, length a multiple of four. -/
def isBase64Char (c : Char) : Bool :=
  let n := c.toNat
  (65 ≤ n && n ≤ 90) || (97 ≤ n && n ≤ 122) || (48 ≤ n && n ≤ 57) ||
    n == 43 || n == 47 || n == 61

def looksEncrypted (s : String) : Bool :=
  if s.length < 10 then false
  else s.data.all isBase64Char && s.length % 4 == 0

/-- `CryptoService.decryptMessage`: empty input yields the literal
`"[Empty message]"`; input failing the base64-shape heuristic is returned
unchanged with no decryption attempt; otherwise the sender address is
derived from the sender id (modelled as `senderAddrName`) and
`SignalProtocol.decryptMessage` is run — on any error the original input
string is returned unchanged ("If decryption fails, return the original
message as fallback"). -/
def decryptMessage (st : StoreState) (senderAddrName : String) (encryptedMessage : String) :
    String × StoreState :=
  if encryptedMessage = "" then ("[Empty message]", st)
  else if looksEncrypted encryptedMessage = false then (encryptedMessage, st)
  else
    match SignalProtocol.decryptMessage st senderAddrName encryptedMessage with
    | .ok (pt, st1) => (pt, st1)
    | .error _ => (encryptedMessage, st)

end CryptoService

/-! ## The chat screen's `sendMessage` (from `src/unnamed/part_001`) -/

/-- The observable outcome of one `sendMessage` call: the `ciphertext`
column value inserted into the `messages` table (none when the insert
failed), the `message_type` column, and the error banner shown via
`setError`. -/
structure SendOutcome where
  insertedCiphertext : Option String
  messageType : String
  errorShown : Option String
deriving DecidableEq

/-- `sendMessage`: with a crypto service present the encryption result is
awaited inside a `try` whose `catch` only logs ("Encryption failed,
sending plain") and leaves `encryptedMessage` at the plaintext; the row is
then inserted with `message_type: 'whisper'` either way.  Only an insert
failure reaches `setError`. -/
def sendMessage (cryptoPresent : Bool) (encResult : Except SigError String)
    (messageText : String) (insertOk : Bool) : SendOutcome :=
  let encryptedMessage :=
    if cryptoPresent then
      match encResult with
      | .ok c => c
      | .error _ => messageText
    else messageText
  if insertOk then
    { insertedCiphertext := some encryptedMessage, messageType := "whisper", errorShown := none }
  else
    { insertedCiphertext := none, messageType := "whisper",
      errorShown := some "Failed to send message" }

/-! ## Claims -/

/-- C3: evaluation of `sendMessage` at a failing encryption.  With the
crypto service present and `encryptMessage` throwing, the message row is
inserted with the plaintext in the `ciphertext` column, the ordinary
`whisper` message type, and no error surfaced: the encryption failure is
caught, only logged, and the plaintext is silently transmitted. -/
theorem C3_sendMessage_silent_plaintext_on_encrypt_error
    (messageText : String) (e : SigError) :
    sendMessage true (.error e) messageText true =
      { insertedCiphertext := some messageText, messageType := "whisper", errorShown := none } := by
  rfl

/-- C6: the safety number is order dependent — with identity keys 1 and 2,
the string user A computes for B differs from the string B computes for A,
because the hash input is `ourKey ++ theirKey` in that order. -/
theorem C6_safety_number_order_dependent :
    SignalProtocol.getSafetyNumber (mkIdentityStore 1) 2 ≠
      SignalProtocol.getSafetyNumber (mkIdentityStore 2) 1 := by
  decide

/-- C7 counterexample: with identity key 5 stored for peer "p", presenting
the different key 6 is still reported trusted — the trust check does not
refuse a changed key, contrary to the claim. -/
theorem C7_changed_key_reported_trusted :
    SignalStore.getIdentity { emptyStore with identities := [("p", 5)] } "p" = some 5 ∧
    SignalStore.isTrustedIdentity { emptyStore with identities := [("p", 5)] } "p" 6 = true := by
  exact ⟨rfl, rfl⟩

/-- C7 (amended): the store unconditionally reports every presented
identity key as trusted, and `saveIdentity` silently overwrites the stored
key for the peer, returning `false`; no `IdentityKeyChanged` event is
surfaced anywhere. -/
theorem C7_always_trusted_silent_overwrite (st : StoreState) (addr : String) (k : Nat) :
    SignalStore.isTrustedIdentity st addr k = true ∧
    (SignalStore.saveIdentity st addr k).1 = false ∧
    SignalStore.getIdentity (SignalStore.saveIdentity st addr k).2 addr = some k := by
  refine ⟨rfl, rfl, ?_⟩
  simp [SignalStore.saveIdentity, SignalStore.getIdentity, lookupA_insertA_self]

/-- C9: evaluation of `getUserBundle` immediately after `generateIdentity`
persisted its records with signed pre-key id 7 and pre-key id 9 — an
identity exists in the store, yet the bundle is reported absent, because
the source looks the records up under the hardcoded ids 1. -/
theorem C9_getUserBundle_absent_after_generate :
    (SignalProtocol.generateIdentity emptyStore ⟨10, 5000, 7, 20, 9, 30, 0⟩).2.identityPub =
      some (pubOf 10) ∧
    SignalProtocol.getUserBundle
      (SignalProtocol.generateIdentity emptyStore ⟨10, 5000, 7, 20, 9, 30, 0⟩).2 0 = none := by
  exact ⟨rfl, rfl⟩

/-- C10: `CryptoService.decryptMessage` is total over its embedding and
never escapes with an error: the empty input yields the literal
`"[Empty message]"`; a non-empty input failing the base64-shape heuristic
is returned unchanged with the state untouched; any error of the
underlying `SignalProtocol.decryptMessage` also results in the original
input returned unchanged; and the heuristic accepts exactly the strings of
length at least ten, length divisible by four, whose characters are all in
`[A-Za-z0-9+/=]`. -/
theorem C10_cryptoservice_decrypt_total (st : StoreState) (addr msg : String) :
    (msg = "" → CryptoService.decryptMessage st addr msg = ("[Empty message]", st)) ∧
    (msg ≠ "" → CryptoService.looksEncrypted msg = false →
      CryptoService.decryptMessage st addr msg = (msg, st)) ∧
    (msg ≠ "" → ∀ e, SignalProtocol.decryptMessage st addr msg = .error e →
      CryptoService.decryptMessage st addr msg = (msg, st)) ∧
    (CryptoService.looksEncrypted msg = true ↔
      10 ≤ msg.length ∧ msg.length % 4 = 0 ∧ ∀ c ∈ msg.data, CryptoService.isBase64Char c) := by
  refine ⟨?_, ?_, ?_, ?_⟩
  · intro h
    simp [CryptoService.decryptMessage, h]
  · intro h1 h2
    simp [CryptoService.decryptMessage, h1, h2]
  · intro h0 e he
    by_cases h2 : CryptoService.looksEncrypted msg
    · simp [CryptoService.decryptMessage, h0, h2, he]
    · simp [CryptoService.decryptMessage, h0, Bool.eq_false_iff.mpr h2]
  · constructor
    · intro h
      by_cases hl : msg.length < 10
      · simp [CryptoService.looksEncrypted, hl] at h
      · rw [CryptoService.looksEncrypted, if_neg hl] at h
        simp only [Bool.and_eq_true, beq_iff_eq, List.all_eq_true] at h
        exact ⟨Nat.le_of_not_lt hl, h.2, h.1⟩
    · rintro ⟨h1, h2, h3⟩
      rw [CryptoService.looksEncrypted, if_neg (Nat.not_lt.mpr h1)]
      simp only [Bool.and_eq_true, beq_iff_eq, List.all_eq_true]
      exact ⟨h3, h2⟩

/-- C10 witness: the three behaviours at concrete inputs — empty input,
a short non-base64-shaped input, and a base64-shaped input the signal
layer rejects. -/
theorem C10_cryptoservice_decrypt_total_witness :
    CryptoService.decryptMessage emptyStore "1" "" = ("[Empty message]", emptyStore) ∧
    CryptoService.decryptMessage emptyStore "1" "hi" = ("hi", emptyStore) ∧
    CryptoService.decryptMessage emptyStore "1" "AAAAAAAAAAAA" = ("AAAAAAAAAAAA", emptyStore) :=
  ⟨(C10_cryptoservice_decrypt_total emptyStore "1" "").1 rfl,
   (C10_cryptoservice_decrypt_total emptyStore "1" "hi").2.1 (by decide) (by decide),
   (C10_cryptoservice_decrypt_total emptyStore "1" "AAAAAAAAAAAA").2.2.1 (by decide)
     SigError.ParseFailure (by rfl)⟩

/-- Changing one entry of a list to a different value changes the list. -/
theorem set_ne_of_ne_get (l : List Nat) (i : Nat) (b : Nat) (hi : i < l.length)
    (hb : b ≠ l.get ⟨i, hi⟩) : l.set i b ≠ l := by
  induction l generalizing i with
  | nil => simp at hi
  | cons a rest ih =>
    cases i with
    | zero =>
      intro h
      simp only [List.set, List.cons.injEq, and_true] at h
      exact hb h
    | succ j =>
      intro h
      simp only [List.set, List.cons.injEq, true_and] at h
      exact ih j (by simpa using hi) hb h

/-- C4: for any local store holding an identity, any remote bundle whose
signed pre-key signature verifies against its identity key, and any
single-byte mutation of that signature, `createSession` fails with
`InvalidSignedPreKeySignature` — the tampered bundle is never accepted. -/
theorem C4_tampered_signature_rejected
    (st : StoreState) (ia : Nat) (hid : st.identityPriv = some ia)
    (bundle : UserBundle)
    (hv : verifySig bundle.identityKey (serializePub bundle.signedPreKey.publicKey)
      bundle.signedPreKey.signature = true)
    (ephPriv i b : Nat) (hi : i < bundle.signedPreKey.signature.length)
    (hb : b ≠ bundle.signedPreKey.signature.get ⟨i, hi⟩) :
    SignalProtocol.createSession st
      { bundle with signedPreKey :=
        { bundle.signedPreKey with signature := bundle.signedPreKey.signature.set i b } }
      ephPriv = .error .InvalidSignedPreKeySignature := by
  have hsig : bundle.signedPreKey.signature =
      pubOf bundle.identityKey :: serializePub bundle.signedPreKey.publicKey := by
    simpa [verifySig] using hv
  have hbad : verifySig bundle.identityKey (serializePub bundle.signedPreKey.publicKey)
      (bundle.signedPreKey.signature.set i b) = false := by
    simp only [verifySig, decide_eq_false_iff_not]
    rw [← hsig]
    exact set_ne_of_ne_get _ i b hi hb
  simp [SignalProtocol.createSession, processPreKeyBundle, hid,
    SignalStore.isTrustedIdentity, hbad]

/-- C4 witness: a concrete valid bundle from `generateIdentity`, its
signature mutated at byte 0, rejected by `createSession`. -/
theorem C4_tampered_signature_rejected_witness :
    SignalProtocol.createSession (mkIdentityStore 3)
      { (SignalProtocol.generateIdentity emptyStore ⟨5, 77, 7, 20, 9, 30, 0⟩).1 with
        signedPreKey :=
        { (SignalProtocol.generateIdentity emptyStore ⟨5, 77, 7, 20, 9, 30, 0⟩).1.signedPreKey with
          signature :=
          (SignalProtocol.generateIdentity emptyStore
            ⟨5, 77, 7, 20, 9, 30, 0⟩).1.signedPreKey.signature.set 0 999 } }
      4 = .error .InvalidSignedPreKeySignature :=
  C4_tampered_signature_rejected (mkIdentityStore 3) 3 rfl
    (SignalProtocol.generateIdentity emptyStore ⟨5, 77, 7, 20, 9, 30, 0⟩).1
    (by decide) 4 0 999 (by decide) (by decide)

/-- C8 (amended): when the recipient's profile publishes no one-time
pre-keys, `CryptoService.encryptMessage` does not take a degraded
identity-plus-signed-pre-key-only path: it substitutes the fallback
pre-key `{keyId := 1, publicKey := identity key}` and establishes the
session with that fallback included in the key agreement.  Establishment
succeeds and does not throw. -/
theorem C8_fallback_prekey_on_empty_pool
    (ia ib spkPriv spkId regId ephPriv : Nat) (message : String) :
    ∃ cipher st1 sess,
      CryptoService.encryptMessage (mkIdentityStore ia)
        ⟨some (pubOf ib), ⟨spkId, pubOf spkPriv, sign ib (serializePub (pubOf spkPriv))⟩, []⟩
        regId ephPriv message = .ok (cipher, st1) ∧
      lookupA st1.sessions (toString regId) = some sess ∧
      sess.otpUsed = some ⟨1, pubOf ib⟩ := by
  simp [CryptoService.encryptMessage, CryptoService.mkRecipientBundle,
    SignalProtocol.createSession, processPreKeyBundle, SignalStore.isTrustedIdentity,
    SignalStore.saveIdentity, StoreState.storeSession, verifySig,
    SignalProtocol.encryptMessage, sessionEncrypt, lookupA, insertA, removeA,
    mkIdentityStore, emptyStore, pubOf, serializePub, sign]
  exact ⟨_, _, ⟨rfl, rfl⟩, _, lookupA_cons_self _ _ _, rfl⟩

/-- C8 counterexample: at a concrete profile with a valid identity and
signed pre-key but an empty one-time pre-key pool, establishment does not
follow the degraded identity-plus-signed-pre-key-only path the claim
describes: the session records a consumed one-time pre-key — the fallback
built from the identity key — in its key-agreement inputs. -/
theorem C8_counterexample_fallback_not_degraded :
    ∃ cipher st1 sess,
      CryptoService.encryptMessage (mkIdentityStore 2)
        ⟨some 5, ⟨7, 6, sign 5 (serializePub 6)⟩, []⟩ 3 4 "m" = .ok (cipher, st1) ∧
      lookupA st1.sessions "3" = some sess ∧ sess.otpUsed ≠ none := by
  refine ⟨_, _, _, rfl, rfl, by decide⟩

/-- C2 (amended): `SignalProtocol.decryptMessage` propagates every
decryption failure as an error, but `CryptoService.decryptMessage`
recovers all of them locally: whenever the signal layer rejects a
non-empty, base64-shaped envelope string, the wrapper returns the original
input string in the plaintext position with the state unchanged, instead
of propagating the error. -/
theorem C2_cryptoservice_recovers_decrypt_errors
    (st : StoreState) (addr s : String) (e : SigError)
    (h0 : s ≠ "") (h1 : CryptoService.looksEncrypted s = true)
    (h2 : SignalProtocol.decryptMessage st addr s = .error e) :
    CryptoService.decryptMessage st addr s = (s, st) := by
  simp [CryptoService.decryptMessage, h0, h1, h2]

/-- C2 counterexample: a concrete envelope whose MAC/tag verification
fails (its symbolic ciphertext key does not match the derived message
key).  The signal layer rejects it with `MacFailure`, yet
`CryptoService.decryptMessage` swallows the error and hands the raw
envelope string back as the message text — the failure is recovered into
a plaintext-like fallback instead of propagating. -/
theorem C2_counterexample_mac_failure_recovered :
    SignalProtocol.decryptMessage
      (SignalProtocol.generateIdentity emptyStore ⟨5, 77, 7, 20, 9, 30, 0⟩).2 "4"
      (encodeEnvelope (Envelope.preKeyMsg 50 (some 9) 7 4 2 0 ⟨13, ""⟩)) =
      .error .MacFailure ∧
    CryptoService.decryptMessage
      (SignalProtocol.generateIdentity emptyStore ⟨5, 77, 7, 20, 9, 30, 0⟩).2 "4"
      (encodeEnvelope (Envelope.preKeyMsg 50 (some 9) 7 4 2 0 ⟨13, ""⟩)) =
      (encodeEnvelope (Envelope.preKeyMsg 50 (some 9) 7 4 2 0 ⟨13, ""⟩),
       (SignalProtocol.generateIdentity emptyStore ⟨5, 77, 7, 20, 9, 30, 0⟩).2) := by
  exact ⟨rfl, rfl⟩

/-- C2 witness: the amended theorem applied at the concrete rejected
envelope. -/
theorem C2_cryptoservice_recovers_decrypt_errors_witness :
    CryptoService.decryptMessage
      (SignalProtocol.generateIdentity emptyStore ⟨6, 78, 7, 20, 9, 30, 0⟩).2 "4"
      (encodeEnvelope (Envelope.preKeyMsg 50 (some 9) 7 4 2 0 ⟨13, ""⟩)) =
      (encodeEnvelope (Envelope.preKeyMsg 50 (some 9) 7 4 2 0 ⟨13, ""⟩),
       (SignalProtocol.generateIdentity emptyStore ⟨6, 78, 7, 20, 9, 30, 0⟩).2) :=
  C2_cryptoservice_recovers_decrypt_errors
    (SignalProtocol.generateIdentity emptyStore ⟨6, 78, 7, 20, 9, 30, 0⟩).2 "4"
    (encodeEnvelope (Envelope.preKeyMsg 50 (some 9) 7 4 2 0 ⟨13, ""⟩))
    .MacFailure (by decide) (by decide) (by rfl)

/-- C1: for every pair of identities — any local identity seed for the
sender and any receiver state produced by `generateIdentity` — and every
plaintext, `createSession` on the receiver's published bundle, then
`encryptMessage`, then, on the receiver's side, `decryptMessage` of the
resulting envelope string returns the original plaintext byte for byte,
for any sender address name. -/
theorem C1_establish_encrypt_decrypt_roundtrip
    (idA : Nat) (rB : IdentityRandomness) (ephPriv : Nat) (pt senderAddr : String) :
    (SignalProtocol.createSession (mkIdentityStore idA)
        (SignalProtocol.generateIdentity emptyStore rB).1 ephPriv).bind
      (fun p => (SignalProtocol.encryptMessage p.2 p.1 pt).bind
        (fun q => (SignalProtocol.decryptMessage
            (SignalProtocol.generateIdentity emptyStore rB).2 senderAddr q.1).map
          (fun r2 => r2.1)))
      = .ok pt := by
  simp [SignalProtocol.createSession, SignalProtocol.generateIdentity,
    SignalProtocol.encryptMessage, SignalProtocol.decryptMessage,
    processPreKeyBundle, sessionEncrypt, signalDecryptEnvelope, decryptPreKeyEnvelope,
    decryptWithSession, SignalStore.isTrustedIdentity, SignalStore.saveIdentity,
    StoreState.storeSession, verifySig, serializePub, sign, pubOf,
    mkIdentityStore, emptyStore, lookupA, insertA, removeA, skipCap, chainKeyAt,
    decodeEnvelope_encodeEnvelope, x3dh_agree_plain, Except.bind, Except.map]

theorem mem_of_lookupA {α β : Type} [DecidableEq α] (l : List (α × β)) (a : α) (b : β)
    (h : lookupA l a = some b) : (a, b) ∈ l := by
  induction l with
  | nil => simp [lookupA] at h
  | cons p rest ih =>
    obtain ⟨k, v⟩ := p
    by_cases hk : a = k
    · subst hk
      simp only [lookupA, if_pos rfl] at h
      obtain rfl := Option.some.inj h
      exact List.mem_cons_self _ _
    · simp only [lookupA, if_neg hk] at h
      exact List.mem_cons_of_mem _ (ih h)

/-- Replay at the session level: a successful decryption consumes the
message key — the position is either advanced past or removed from the
skipped store — so decrypting the same (counter, ciphertext) against the
resulting session fails as a duplicate. -/
theorem decryptWithSession_replay (sess : SessionRecord) (n : Nat) (ct : SymCt)
    (pt : String) (sess2 : SessionRecord) (hwf : SessionWF sess)
    (h : decryptWithSession sess n ct = .ok (pt, sess2)) :
    decryptWithSession sess2 n ct = .error .DuplicateMessage := by
  unfold decryptWithSession at h
  by_cases h1 : n < sess.recvCount
  · rw [if_pos h1] at h
    cases hlk : lookupA sess.skipped n with
    | none => rw [hlk] at h; exact absurd h (by simp)
    | some mk =>
      rw [hlk] at h
      by_cases hk : ct.key = mk
      · simp only [if_pos hk, Except.ok.injEq, Prod.mk.injEq] at h
        obtain ⟨-, hs⟩ := h
        subst hs
        simp [decryptWithSession, h1, lookupA_removeA_self]
      · simp only [if_neg hk] at h; exact absurd h (by simp)
  · rw [if_neg h1] at h
    by_cases h2 : skipCap < n - sess.recvCount
    · rw [if_pos h2] at h; exact absurd h (by simp)
    · rw [if_neg h2] at h
      by_cases hk : ct.key = msgKeyOf (chainKeyAt sess.recvChainKey (n - sess.recvCount))
      · simp only [if_pos hk, Except.ok.injEq, Prod.mk.injEq] at h
        obtain ⟨-, hs⟩ := h
        subst hs
        have hle := Nat.le_of_not_lt h1
        have hnone : lookupA (((List.range (n - sess.recvCount)).map
            (fun j => (sess.recvCount + j, msgKeyOf (chainKeyAt sess.recvChainKey j)))) ++
            sess.skipped) n = none := by
          apply lookupA_append_none
          · apply lookupA_none_of_all_ne
            intro p hp
            simp only [List.mem_map, List.mem_range] at hp
            obtain ⟨j, hj, rfl⟩ := hp
            simp only []
            omega
          · apply lookupA_none_of_all_ne
            intro p hp
            have := hwf p hp
            omega
        simp [decryptWithSession, Nat.lt_succ_self n, hnone]
      · simp only [if_neg hk] at h; exact absurd h (by simp)

/-- A successful decryption leaves the recorded sender base key of the
session unchanged. -/
theorem decryptWithSession_theirBaseKey (sess : SessionRecord) (n : Nat) (ct : SymCt)
    (pt : String) (sess2 : SessionRecord)
    (h : decryptWithSession sess n ct = .ok (pt, sess2)) :
    sess2.theirBaseKey = sess.theirBaseKey := by
  unfold decryptWithSession at h
  by_cases h1 : n < sess.recvCount
  · rw [if_pos h1] at h
    cases hlk : lookupA sess.skipped n with
    | none => rw [hlk] at h; exact absurd h (by simp)
    | some mk =>
      rw [hlk] at h
      by_cases hk : ct.key = mk
      · simp only [if_pos hk, Except.ok.injEq, Prod.mk.injEq] at h
        obtain ⟨-, hs⟩ := h
        subst hs
        rfl
      · simp only [if_neg hk] at h; exact absurd h (by simp)
  · rw [if_neg h1] at h
    by_cases h2 : skipCap < n - sess.recvCount
    · rw [if_pos h2] at h; exact absurd h (by simp)
    · rw [if_neg h2] at h
      by_cases hk : ct.key = msgKeyOf (chainKeyAt sess.recvChainKey (n - sess.recvCount))
      · simp only [if_pos hk, Except.ok.injEq, Prod.mk.injEq] at h
        obtain ⟨-, hs⟩ := h
        subst hs
        rfl
      · simp only [if_neg hk] at h; exact absurd h (by simp)

/-- A bootstrap decrypt whose referenced one-time pre-key is absent from
the store fails with `StaleOneTimePreKey`. -/
theorem decryptPreKeyEnvelope_second_stale (st2 : StoreState) (addr : String)
    (p sid eph ipub n : Nat) (ct : SymCt) (ib : Nat) (spkRec : SignedPreKeyRecord)
    (hip : st2.identityPriv = some ib)
    (hspk : lookupA st2.signedPreKeys sid = some spkRec)
    (hpk : lookupA st2.preKeys p = none) :
    decryptPreKeyEnvelope st2 addr (some p) sid eph ipub n ct =
      .error .StaleOneTimePreKey := by
  simp only [decryptPreKeyEnvelope, SignalStore.isTrustedIdentity, hip, hspk, hpk]
  rfl

/-- A bootstrap decrypt without a one-time pre-key reference reuses the
stored session when its sender base key matches, and fails as a duplicate
when that session already consumed the chain position. -/
theorem decryptPreKeyEnvelope_second_dup (st2 : StoreState) (addr : String)
    (sid eph ipub n : Nat) (ct : SymCt) (ib : Nat) (spkRec : SignedPreKeyRecord)
    (sess2 : SessionRecord)
    (hip : st2.identityPriv = some ib)
    (hspk : lookupA st2.signedPreKeys sid = some spkRec)
    (hsess : lookupA st2.sessions addr = some sess2)
    (htb2 : sess2.theirBaseKey = some eph)
    (hrep : decryptWithSession sess2 n ct = .error .DuplicateMessage) :
    decryptPreKeyEnvelope st2 addr none sid eph ipub n ct =
      .error .DuplicateMessage := by
  simp only [decryptPreKeyEnvelope, SignalStore.isTrustedIdentity, hip, hspk, hsess,
    htb2, if_pos, hrep]
  rfl

/-- Replay at the envelope level: from a well-formed store, an envelope
that decrypted successfully once fails when decrypted again against the
resulting store — a consumed one-time pre-key is gone
(`StaleOneTimePreKey`) and a consumed chain position is a duplicate
(`DuplicateMessage`). -/
theorem signalDecryptEnvelope_replay (st : StoreState) (addr : String) (env : Envelope)
    (pt : String) (st2 : StoreState) (hwf : StateWF st)
    (h : signalDecryptEnvelope st addr env = .ok (pt, st2)) :
    ∃ e, signalDecryptEnvelope st2 addr env = .error e := by
  cases env with
  | normalMsg n ct =>
    simp only [signalDecryptEnvelope] at h ⊢
    cases hlk : lookupA st.sessions addr with
    | none => simp [hlk] at h
    | some sess =>
      simp only [hlk] at h
      cases hdec : decryptWithSession sess n ct with
      | error e => simp [hdec] at h
      | ok pr =>
        obtain ⟨pt2, sess2⟩ := pr
        simp only [hdec, Except.ok.injEq, Prod.mk.injEq] at h
        obtain ⟨hpt, hst⟩ := h
        subst hst
        have hwfs : SessionWF sess := hwf (addr, sess) (mem_of_lookupA _ _ _ hlk)
        have hrep := decryptWithSession_replay sess n ct pt2 sess2 hwfs hdec
        have hlk2 : lookupA (st.storeSession addr sess2).sessions addr = some sess2 := by
          simp [StoreState.storeSession, lookupA_insertA_self]
        exact ⟨.DuplicateMessage, by simp only [hlk2, hrep]⟩
  | preKeyMsg regId pid sid eph ipub n ct =>
    simp only [signalDecryptEnvelope, decryptPreKeyEnvelope] at h
    cases hip : st.identityPriv with
    | none => simp [hip] at h
    | some ib =>
      simp only [hip] at h
      rw [if_neg (by simp [SignalStore.isTrustedIdentity])] at h
      cases hspk : lookupA st.signedPreKeys sid with
      | none => simp [hspk] at h
      | some spkRec =>
        simp only [hspk] at h
        cases pid with
        | some p =>
          cases hpk : lookupA st.preKeys p with
          | none => simp [hpk] at h
          | some pkRec =>
            simp only [hpk] at h
            split at h
            · exact absurd h (by simp)
            · rename_i pt2 sess2 hdw
              simp only [Except.ok.injEq, Prod.mk.injEq] at h
              obtain ⟨hpt, hst⟩ := h
              subst hst
              refine ⟨.StaleOneTimePreKey, ?_⟩
              simp only [signalDecryptEnvelope]
              exact decryptPreKeyEnvelope_second_stale _ addr p sid eph ipub n ct ib spkRec
                rfl hspk (lookupA_removeA_self _ _)
        | none =>
          cases hs0 : lookupA st.sessions addr with
          | none =>
            simp only [hs0] at h
            split at h
            · exact absurd h (by simp)
            · rename_i pt2 sess2 hdw
              simp only [Except.ok.injEq, Prod.mk.injEq] at h
              obtain ⟨hpt, hst⟩ := h
              subst hst
              have hrep := decryptWithSession_replay _ n ct pt2 sess2
                (by intro q hq; simp at hq) hdw
              have htb := decryptWithSession_theirBaseKey _ n ct pt2 sess2 hdw
              refine ⟨.DuplicateMessage, ?_⟩
              simp only [signalDecryptEnvelope]
              exact decryptPreKeyEnvelope_second_dup _ addr sid eph ipub n ct ib spkRec sess2
                hip hspk (lookupA_insertA_self _ _ _) htb hrep
          | some s0 =>
            simp only [hs0] at h
            by_cases hb : s0.theirBaseKey = some eph
            · rw [if_pos hb] at h
              split at h
              · exact absurd h (by simp)
              · rename_i pt2 sess2 hdw
                simp only [Except.ok.injEq, Prod.mk.injEq] at h
                obtain ⟨hpt, hst⟩ := h
                subst hst
                have hwfs : SessionWF s0 := hwf (addr, s0) (mem_of_lookupA _ _ _ hs0)
                have hrep := decryptWithSession_replay s0 n ct pt2 sess2 hwfs hdw
                have htb := (decryptWithSession_theirBaseKey s0 n ct pt2 sess2 hdw).trans hb
                refine ⟨.DuplicateMessage, ?_⟩
                simp only [signalDecryptEnvelope]
                exact decryptPreKeyEnvelope_second_dup _ addr sid eph ipub n ct ib spkRec sess2
                  hip hspk (lookupA_insertA_self _ _ _) htb hrep
            · rw [if_neg hb] at h
              split at h
              · exact absurd h (by simp)
              · rename_i pt2 sess2 hdw
                simp only [Except.ok.injEq, Prod.mk.injEq] at h
                obtain ⟨hpt, hst⟩ := h
                subst hst
                have hrep := decryptWithSession_replay _ n ct pt2 sess2
                  (by intro q hq; simp at hq) hdw
                have htb := decryptWithSession_theirBaseKey _ n ct pt2 sess2 hdw
                refine ⟨.DuplicateMessage, ?_⟩
                simp only [signalDecryptEnvelope]
                exact decryptPreKeyEnvelope_second_dup _ addr sid eph ipub n ct ib spkRec sess2
                  hip hspk (lookupA_insertA_self _ _ _) htb hrep

/-- C5: replay fails — for every well-formed store, decrypting an
envelope string that already decrypted successfully (advancing the store)
fails the second time: the consumed one-time pre-key or chain position is
rejected, and the plaintext is never silently returned again. -/
theorem C5_replay_second_decrypt_fails (st : StoreState) (addr s pt : String)
    (st2 : StoreState) (hwf : StateWF st)
    (h : SignalProtocol.decryptMessage st addr s = .ok (pt, st2)) :
    ∃ e, SignalProtocol.decryptMessage st2 addr s = .error e := by
  unfold SignalProtocol.decryptMessage at h ⊢
  cases hdec : decodeEnvelope s with
  | none => simp [hdec] at h
  | some env =>
    simp only [hdec] at h ⊢
    exact signalDecryptEnvelope_replay st addr env pt st2 hwf h

set_option maxRecDepth 4000 in
/-- C5 witness: a concrete bootstrap envelope decrypts once and then
fails on the identical copy. -/
theorem C5_replay_second_decrypt_fails_witness :
    ∃ pt st2,
      SignalProtocol.decryptMessage
        (SignalProtocol.generateIdentity emptyStore ⟨5, 77, 7, 20, 9, 30, 0⟩).2 "4"
        (encodeEnvelope (Envelope.preKeyMsg 50 (some 9) 7 4 2 0
          ⟨msgKeyOf (chainInit (kdfRoot (x3dhSender 2 4 5 20 (some 30))) 0), "hello"⟩)) =
        .ok (pt, st2) ∧
      ∃ e, SignalProtocol.decryptMessage st2 "4"
        (encodeEnvelope (Envelope.preKeyMsg 50 (some 9) 7 4 2 0
          ⟨msgKeyOf (chainInit (kdfRoot (x3dhSender 2 4 5 20 (some 30))) 0), "hello"⟩)) =
        .error e := by
  refine ⟨_, _, rfl, ?_⟩
  exact C5_replay_second_decrypt_fails
    (SignalProtocol.generateIdentity emptyStore ⟨5, 77, 7, 20, 9, 30, 0⟩).2 "4" _ _ _
    (by decide) rfl
